import Mathlib

/-!
Verification of the `to_do.py` task-list CLI: a shallow embedding of its
data model and command handlers, together with theorems settling the
specification claims about filtering, id assignment, the list sort order,
date validation, not-found handling, the load recovery rules, the overdue
marker, and the edit frame conditions.
-/

deriving instance DecidableEq for Except

namespace ToDo

/-- A task record, mirroring the dict created by `add` in `to_do.py`:
`id`, `text`, `created_at`, `due` (optional ISO date string), `priority`,
`done`. -/
structure Task where
  id : Int
  text : String
  created_at : String
  due : Option String
  priority : Int
  done : Bool
deriving DecidableEq, Repr

/-- `next_id`: `max((t["id"] for t in tasks), default=0) + 1`.  The Python
`max` with `default=0` returns 0 only when the list is empty, so the fold
starts from the first id rather than from 0. -/
def nextId (tasks : List Task) : Int :=
  (match tasks.map (·.id) with
   | [] => 0
   | x :: xs => xs.foldl max x) + 1

/-- Split a character list at every `'-'`, the behaviour of Python's
`s.split("-")` on the strings `strptime` and `fromisoformat` see. -/
def splitDashes : List Char → List (List Char)
  | [] => [[]]
  | c :: cs =>
    if c = '-' then [] :: splitDashes cs
    else match splitDashes cs with
      | [] => [[c]]
      | g :: gs => (c :: g) :: gs

/-- All characters are ASCII digits and the list is nonempty. -/
def allDigits (cs : List Char) : Bool :=
  !cs.isEmpty && cs.all (·.isDigit)

/-- Gregorian leap-year rule, as in Python's `datetime`. -/
def isLeap (y : Nat) : Bool :=
  y % 4 == 0 && (y % 100 != 0 || y % 400 == 0)

/-- Days in a month, as validated by Python's `date` constructor. -/
def daysInMonth (y m : Nat) : Nat :=
  if m = 2 then (if isLeap y then 29 else 28)
  else if m = 4 ∨ m = 6 ∨ m = 9 ∨ m = 11 then 30
  else 31

/-- The numeric value of a decimal digit string. -/
def digitsToNat (cs : List Char) : Nat :=
  cs.foldl (fun n c => n * 10 + (c.toNat - 48)) 0

/-- `datetime.strptime(s, "%Y-%m-%d")` followed by `.date()`: the year is
exactly four digits, month and day one or two digits, and the triple must
be a valid calendar date (year ≥ 1, month 1–12, day within the month).
Returns the parsed (year, month, day) or `none` on `ValueError`. -/
def parseYmd (s : String) : Option (Nat × Nat × Nat) :=
  match splitDashes s.toList with
  | [ys, ms, ds] =>
    if allDigits ys && ys.length = 4 && allDigits ms && ms.length ≤ 2
        && allDigits ds && ds.length ≤ 2 then
      let y := digitsToNat ys
      let m := digitsToNat ms
      let d := digitsToNat ds
      if 1 ≤ y ∧ 1 ≤ m ∧ m ≤ 12 ∧ 1 ≤ d ∧ d ≤ daysInMonth y m then
        some (y, m, d)
      else none
    else none
  | _ => none

/-- Left-pad a numeral to two digits, as in `date.isoformat`. -/
def pad2 (n : Nat) : String :=
  if n < 10 then "0" ++ toString n else toString n

/-- Left-pad a numeral to four digits, as in `date.isoformat`. -/
def pad4 (n : Nat) : String :=
  if n < 10 then "000" ++ toString n
  else if n < 100 then "00" ++ toString n
  else if n < 1000 then "0" ++ toString n
  else toString n

/-- `date(y, m, d).isoformat()`: the canonical `YYYY-MM-DD` rendering. -/
def isoOfYmd : Nat × Nat × Nat → String
  | (y, m, d) => pad4 y ++ "-" ++ pad2 m ++ "-" ++ pad2 d

/-- Python's truthiness test `not s` for a string: true exactly on `""`. -/
def strFalsy (s : String) : Bool :=
  s.toList.isEmpty

/-- ASCII whitespace, the characters `str.strip()` removes. -/
def isPySpace (c : Char) : Bool :=
  c = ' ' ∨ c = '\t' ∨ c = '\n' ∨ c = '\r' ∨ c = '\x0b' ∨ c = '\x0c'

/-- Python's `str.strip()`: drop whitespace from both ends. -/
def strip (s : String) : String :=
  ⟨((s.toList.dropWhile isPySpace).reverse.dropWhile isPySpace).reverse⟩

/-- `parse_date`: `None` and the empty string are falsy and yield `None`
without touching the date parser; otherwise the string must parse as
`%Y-%m-%d`, and on failure the program prints to stderr and exits with
code 2 (modelled as `Except.error 2`). -/
def parseDate : Option String → Except Nat (Option String)
  | none => .ok none
  | some s =>
    if strFalsy s then .ok none
    else match parseYmd s with
      | some ymd => .ok (some (isoOfYmd ymd))
      | none => .error 2

/-- `status_symbol`. -/
def statusSymbol (t : Task) : String :=
  if t.done then "✔" else "•"

/-- `date.fromisoformat` (strict form): exactly `YYYY-MM-DD` with
two-digit month and day, a valid calendar date. -/
def fromIso (s : String) : Option (Nat × Nat × Nat) :=
  match splitDashes s.toList with
  | [ys, ms, ds] =>
    if allDigits ys && ys.length = 4 && allDigits ms && ms.length = 2
        && allDigits ds && ds.length = 2 then
      let y := digitsToNat ys
      let m := digitsToNat ms
      let d := digitsToNat ds
      if 1 ≤ y ∧ 1 ≤ m ∧ m ≤ 12 ∧ 1 ≤ d ∧ d ≤ daysInMonth y m then
        some (y, m, d)
      else none
    else none
  | _ => none

/-- Python's `<` on `date` objects: lexicographic on (year, month, day). -/
def dateLt : Nat × Nat × Nat → Nat × Nat × Nat → Bool
  | (y1, m1, d1), (y2, m2, d2) =>
    y1 < y2 || (y1 = y2 && (m1 < m2 || (m1 = m2 && d1 < d2)))

/-- `is_overdue`: a done task is never overdue, a task with a falsy `due`
is never overdue, otherwise the due date is compared against today;
an unparseable due string yields `False` (the `except ValueError` arm). -/
def isOverdue (t : Task) (today : Nat × Nat × Nat) : Bool :=
  if t.done then false
  else match t.due with
    | none => false
    | some s =>
      if strFalsy s then false
      else match fromIso s with
        | some d => dateLt d today
        | none => false

/-- `add`: trims the text, parses the due date (exiting with code 2 if it
is invalid), assigns `next_id`, and appends the new task. `now` stands
for `datetime.now().isoformat(timespec="seconds")`. -/
def addCmd (text : String) (due : Option String) (priority : Int)
    (now : String) (tasks : List Task) : Except Nat (List Task) :=
  (parseDate due).map fun d =>
    tasks ++ [{ id := nextId tasks, text := strip text, created_at := now,
                due := d, priority := priority, done := false }]

/-- The filtering step of `list_cmd`: `args.done is True` keeps only done
tasks, `args.done is False` keeps only pending tasks, anything else (the
unset case) keeps everything. -/
def listFilter : Option Bool → List Task → List Task
  | some true, tasks => tasks.filter (·.done)
  | some false, tasks => tasks.filter (fun t => !t.done)
  | none, tasks => tasks

/-- Modelled from the source `build_parser`: for the `list` subcommand,
`--done` (`store_true`, implicit default `False`) and `--todo`
(`store_false`) share the destination `done`, and argparse initializes the
namespace from the first action registered for a destination; so when
neither flag is given, `args.done` is `False`, not unset. -/
def listDoneDefault : Option Bool := some false

/-- The sort key of `list_cmd.sort_key`: `(done_rank, priority, due, id)`
with the falsy-`due` sentinel `"9999-12-31"`. -/
def sortKey (t : Task) : Nat × Int × String × Int :=
  ( if t.done then 1 else 0,
    t.priority,
    (match t.due with
     | none => "9999-12-31"
     | some s => if strFalsy s then "9999-12-31" else s),
    t.id )

/-- Decidable `≤` of a linear order as a Bool, the base of the
lexicographic comparison of Python tuples. -/
def ble {α : Type} [LinearOrder α] (a b : α) : Bool :=
  decide (a ≤ b)

/-- One step of Python's lexicographic tuple comparison: strictly smaller
first components decide, equal first components defer to the rest. -/
def lexLe {α β : Type} [LinearOrder α] (f : β → β → Bool) :
    α × β → α × β → Bool :=
  fun x y =>
    if x.1 < y.1 then true
    else if x.1 = y.1 then f x.2 y.2
    else false

/-- Python's `<` on strings, by code point, on the underlying character
lists: a strict lexicographic comparison where a proper prefix is
smaller. -/
def strLtL : List Char → List Char → Bool
  | [], [] => false
  | [], _ :: _ => true
  | _ :: _, [] => false
  | a :: as, b :: bs => if a = b then strLtL as bs else decide (a < b)

/-- Python's `<` on strings. -/
def strLtB (s t : String) : Bool :=
  strLtL s.toList t.toList

/-- The string layer of the tuple comparison, using Python's string `<`. -/
def lexLeStr {β : Type} (f : β → β → Bool) :
    String × β → String × β → Bool :=
  fun x y =>
    if strLtB x.1 y.1 then true
    else if x.1 = y.1 then f x.2 y.2
    else false

/-- The comparison `sort_key(t) <= sort_key(u)` used by the (stable,
ascending) `tasks.sort(key=sort_key)`. -/
def keyLe (t u : Task) : Bool :=
  lexLe (lexLe (lexLeStr ble)) (sortKey t) (sortKey u)

/-- The sorting step of `list_cmd`: Python's stable ascending sort by
`sort_key`, modelled as a stable merge sort under `keyLe`. -/
def sortTasks (tasks : List Task) : List Task :=
  tasks.mergeSort keyLe

/-- The tasks `list_cmd` renders, in order: load, filter, sort. -/
def listTasks (doneFilter : Option Bool) (tasks : List Task) : List Task :=
  sortTasks (listFilter doneFilter tasks)

/-- The raw Due column text before the overdue marker:
`t.get("due") or "-"`. -/
def rawDue (t : Task) : String :=
  match t.due with
  | none => "-"
  | some s => if strFalsy s then "-" else s

/-- The rendered Due cell of `list_cmd`: the raw text, with `" (!) "`
appended exactly when `is_overdue` holds. -/
def dueCell (t : Task) (today : Nat × Nat × Nat) : String :=
  if isOverdue t today then rawDue t ++ " (!) " else rawDue t

/-- `done`: mark the first task with the given id as done; if none
matches, print to stderr and exit 1. -/
def doneCmd (id : Int) : List Task → Except Nat (List Task)
  | [] => .error 1
  | t :: ts =>
    if t.id = id then .ok ({ t with done := true } :: ts)
    else (doneCmd id ts).map (t :: ·)

/-- `delete`: drop every task with the given id; if the length did not
change, no task had that id, so exit 1. -/
def deleteCmd (id : Int) (tasks : List Task) : Except Nat (List Task) :=
  let kept := tasks.filter (fun t => t.id ≠ id)
  if kept.length = tasks.length then .error 1 else .ok kept

/-- The optional `--text`, `--due`, `--priority` arguments of `edit`. -/
structure EditArgs where
  text : Option String
  due : Option String
  priority : Option Int
deriving DecidableEq, Repr

/-- The field updates `edit` performs on the matched task, in source
order: trim and store the text if given, parse and store the due date if
given (exiting 2 on a bad date), store the priority if given. -/
def applyEdit (a : EditArgs) (t : Task) : Except Nat Task :=
  let t1 := match a.text with
    | some s => { t with text := strip s }
    | none => t
  match a.due with
  | some s =>
    match parseDate (some s) with
    | .error e => .error e
    | .ok d =>
      let t2 := { t1 with due := d }
      .ok (match a.priority with
        | some p => { t2 with priority := p }
        | none => t2)
  | none =>
    .ok (match a.priority with
      | some p => { t1 with priority := p }
      | none => t1)

/-- The spec's field-wise description of the task `edit` produces when
the due argument parses to `d`: each provided field overwritten (text
stripped, due replaced by the parsed value), all other fields kept. -/
def editedTask (a : EditArgs) (d : Option String) (t : Task) : Task :=
  { id := t.id, created_at := t.created_at, done := t.done,
    text := match a.text with | some s => strip s | none => t.text,
    due := match a.due with | some _ => d | none => t.due,
    priority := match a.priority with | some p => p | none => t.priority }

/-- `edit`: update the first task with the given id and keep the rest;
if none matches, print to stderr and exit 1. -/
def editCmd (id : Int) (a : EditArgs) : List Task → Except Nat (List Task)
  | [] => .error 1
  | t :: ts =>
    if t.id = id then (applyEdit a t).map (· :: ts)
    else (editCmd id a ts).map (t :: ·)

/-- What ends up in the persisted file after a command: commands call
`save_tasks` only on success, so an error leaves the old contents. -/
def finalTasks (r : Except Nat (List Task)) (old : List Task) : List Task :=
  match r with
  | .ok ts => ts
  | .error _ => old

/-- The state of the persisted `tasks.json` as `load_tasks` sees it:
the file may be missing, hold bytes that are not valid UTF-8 (so that
`json.load` raises `UnicodeDecodeError` while decoding), hold UTF-8 text
that is not valid JSON (`json.JSONDecodeError`), or parse to a JSON
value that is or is not a list. -/
inductive FileState where
  | missing
  | undecodable
  | unparseable
  | parsedNonList
  | parsedList (tasks : List Task)
deriving DecidableEq

/-- `load_tasks`: a missing file, a `json.JSONDecodeError`, or a
top-level value that is not a list all yield `[]`; a parsed list is
returned as is.  The `try` catches ONLY `json.JSONDecodeError`, so the
`UnicodeDecodeError` raised on a non-UTF-8 file propagates to the
caller, modelled as `Except.error`. -/
def loadTasks : FileState → Except String (List Task)
  | .missing => .ok []
  | .undecodable => .error "UnicodeDecodeError"
  | .unparseable => .ok []
  | .parsedNonList => .ok []
  | .parsedList tasks => .ok tasks

/-! Concrete tasks used in witnesses and counterexamples. -/

/-- A pending task with id 1 and no due date. -/
def taskA : Task :=
  { id := 1, text := "buy milk", created_at := "2025-01-01T10:00:00",
    due := none, priority := 3, done := false }

/-- A done task with id 2 and a due date. -/
def taskB : Task :=
  { id := 2, text := "report", created_at := "2025-01-01T10:00:00",
    due := some "2025-01-01", priority := 1, done := true }

/-- The task the first `add` on an empty store creates. -/
def exTask1 : Task :=
  { id := 1, text := "a", created_at := "T", due := none, priority := 3,
    done := false }

/-- The task a second `add` creates. -/
def exTask2 : Task :=
  { id := 2, text := "b", created_at := "T", due := none, priority := 3,
    done := false }

/-! Order-theoretic facts about the lexicographic comparison. -/

lemma ble_eq_true_iff {α : Type} [LinearOrder α] {a b : α} :
    ble a b = true ↔ a ≤ b := by
  simp [ble]

lemma ble_trans {α : Type} [LinearOrder α] :
    ∀ a b c : α, ble a b = true → ble b c = true → ble a c = true := by
  intro a b c hab hbc
  rw [ble_eq_true_iff] at hab hbc ⊢
  exact le_trans hab hbc

lemma ble_total {α : Type} [LinearOrder α] :
    ∀ a b : α, ble a b = true ∨ ble b a = true := by
  intro a b
  rw [ble_eq_true_iff, ble_eq_true_iff]
  exact le_total a b

lemma ble_antisymm {α : Type} [LinearOrder α] :
    ∀ a b : α, ble a b = true → ble b a = true → a = b := by
  intro a b h1 h2
  rw [ble_eq_true_iff] at h1 h2
  exact le_antisymm h1 h2

lemma lexLe_eq_true_iff {α β : Type} [LinearOrder α] {f : β → β → Bool}
    {x y : α × β} :
    lexLe f x y = true ↔ x.1 < y.1 ∨ (x.1 = y.1 ∧ f x.2 y.2 = true) := by
  unfold lexLe
  split_ifs with h1 h2
  · simp [h1]
  · simp [h1, h2]
  · simp [h1, h2]

lemma lexLe_trans {α β : Type} [LinearOrder α] {f : β → β → Bool}
    (hf : ∀ a b c, f a b = true → f b c = true → f a c = true) :
    ∀ x y z : α × β,
      lexLe f x y = true → lexLe f y z = true → lexLe f x z = true := by
  intro x y z hxy hyz
  rw [lexLe_eq_true_iff] at hxy hyz ⊢
  rcases hxy with h | ⟨he, h2⟩
  · rcases hyz with h3 | ⟨he3, _⟩
    · exact Or.inl (lt_trans h h3)
    · exact Or.inl (he3 ▸ h)
  · rcases hyz with h3 | ⟨he3, h4⟩
    · exact Or.inl (he ▸ h3)
    · exact Or.inr ⟨he.trans he3, hf _ _ _ h2 h4⟩

lemma lexLe_total {α β : Type} [LinearOrder α] {f : β → β → Bool}
    (hf : ∀ a b, f a b = true ∨ f b a = true) :
    ∀ x y : α × β, lexLe f x y = true ∨ lexLe f y x = true := by
  intro x y
  rw [lexLe_eq_true_iff, lexLe_eq_true_iff]
  rcases lt_trichotomy x.1 y.1 with h | h | h
  · exact Or.inl (Or.inl h)
  · rcases hf x.2 y.2 with h2 | h2
    · exact Or.inl (Or.inr ⟨h, h2⟩)
    · exact Or.inr (Or.inr ⟨h.symm, h2⟩)
  · exact Or.inr (Or.inl h)

lemma lexLe_antisymm {α β : Type} [LinearOrder α] {f : β → β → Bool}
    (hf : ∀ a b, f a b = true → f b a = true → a = b) :
    ∀ x y : α × β, lexLe f x y = true → lexLe f y x = true → x = y := by
  intro x y hxy hyx
  rw [lexLe_eq_true_iff] at hxy hyx
  rcases hxy with h | ⟨he, h2⟩
  · rcases hyx with h3 | ⟨he3, _⟩
    · exact absurd h3 (lt_asymm h)
    · exact absurd he3.symm (ne_of_lt h)
  · rcases hyx with h3 | ⟨_, h4⟩
    · exact absurd he (ne_of_gt h3)
    · exact Prod.ext he (hf _ _ h2 h4)

lemma strLtL_irrefl : ∀ as : List Char, strLtL as as = false := by
  intro as
  induction as with
  | nil => rfl
  | cons a as' ih => simp [strLtL, ih]

lemma strLtL_trans :
    ∀ as bs cs : List Char,
      strLtL as bs = true → strLtL bs cs = true → strLtL as cs = true := by
  intro as
  induction as with
  | nil =>
    intro bs cs h1 h2
    cases bs with
    | nil => cases h1
    | cons b bs' =>
      cases cs with
      | nil => cases h2
      | cons c cs' => rfl
  | cons a as' ih =>
    intro bs cs h1 h2
    cases bs with
    | nil => cases h1
    | cons b bs' =>
      cases cs with
      | nil => cases h2
      | cons c cs' =>
        by_cases hab : a = b
        · subst hab
          by_cases hac : a = c
          · subst hac
            simp only [strLtL, if_pos rfl] at h1 h2 ⊢
            exact ih bs' cs' h1 h2
          · simp only [strLtL, if_pos rfl] at h1
            simp only [strLtL, if_neg hac] at h2 ⊢
            exact h2
        · by_cases hbc : b = c
          · subst hbc
            simp only [strLtL, if_neg hab] at h1 ⊢
            exact h1
          · simp only [strLtL, if_neg hab, if_neg hbc] at h1 h2
            have hlt : a < c := lt_trans (of_decide_eq_true h1) (of_decide_eq_true h2)
            simp only [strLtL, if_neg (ne_of_lt hlt)]
            exact decide_eq_true hlt

lemma strLtL_trichotomy :
    ∀ as bs : List Char,
      strLtL as bs = true ∨ as = bs ∨ strLtL bs as = true := by
  intro as
  induction as with
  | nil =>
    intro bs
    cases bs with
    | nil => exact Or.inr (Or.inl rfl)
    | cons b bs' => exact Or.inl rfl
  | cons a as' ih =>
    intro bs
    cases bs with
    | nil => exact Or.inr (Or.inr rfl)
    | cons b bs' =>
      by_cases hab : a = b
      · subst hab
        rcases ih bs' with h | h | h
        · exact Or.inl (by simp [strLtL, h])
        · exact Or.inr (Or.inl (by rw [h]))
        · exact Or.inr (Or.inr (by simp [strLtL, h]))
      · rcases lt_or_gt_of_ne hab with h | h
        · exact Or.inl (by simp [strLtL, hab]; exact h)
        · refine Or.inr (Or.inr ?_)
          simp [strLtL, Ne.symm hab]
          exact h

lemma strLtB_irrefl (s : String) : strLtB s s = false :=
  strLtL_irrefl s.toList

lemma strLtB_trans {s t v : String} (h1 : strLtB s t = true)
    (h2 : strLtB t v = true) : strLtB s v = true :=
  strLtL_trans _ _ _ h1 h2

lemma strLtB_trichotomy (s t : String) :
    strLtB s t = true ∨ s = t ∨ strLtB t s = true := by
  rcases strLtL_trichotomy s.toList t.toList with h | h | h
  · exact Or.inl h
  · refine Or.inr (Or.inl ?_)
    cases s
    cases t
    simpa [String.toList] using congrArg String.mk h
  · exact Or.inr (Or.inr h)

lemma lexLeStr_eq_true_iff {β : Type} {f : β → β → Bool}
    {x y : String × β} :
    lexLeStr f x y = true ↔
      strLtB x.1 y.1 = true ∨ (x.1 = y.1 ∧ f x.2 y.2 = true) := by
  unfold lexLeStr
  split_ifs with h1 h2
  · simp [h1]
  · simp [h1, h2, strLtB_irrefl]
  · simp [h1, h2]

lemma lexLeStr_trans {β : Type} {f : β → β → Bool}
    (hf : ∀ a b c, f a b = true → f b c = true → f a c = true) :
    ∀ x y z : String × β,
      lexLeStr f x y = true → lexLeStr f y z = true →
        lexLeStr f x z = true := by
  intro x y z hxy hyz
  rw [lexLeStr_eq_true_iff] at hxy hyz ⊢
  rcases hxy with h | ⟨he, h2⟩
  · rcases hyz with h3 | ⟨he3, _⟩
    · exact Or.inl (strLtB_trans h h3)
    · exact Or.inl (he3 ▸ h)
  · rcases hyz with h3 | ⟨he3, h4⟩
    · exact Or.inl (he ▸ h3)
    · exact Or.inr ⟨he.trans he3, hf _ _ _ h2 h4⟩

lemma lexLeStr_total {β : Type} {f : β → β → Bool}
    (hf : ∀ a b, f a b = true ∨ f b a = true) :
    ∀ x y : String × β, lexLeStr f x y = true ∨ lexLeStr f y x = true := by
  intro x y
  rw [lexLeStr_eq_true_iff, lexLeStr_eq_true_iff]
  rcases strLtB_trichotomy x.1 y.1 with h | h | h
  · exact Or.inl (Or.inl h)
  · rcases hf x.2 y.2 with h2 | h2
    · exact Or.inl (Or.inr ⟨h, h2⟩)
    · exact Or.inr (Or.inr ⟨h.symm, h2⟩)
  · exact Or.inr (Or.inl h)

lemma lexLeStr_antisymm {β : Type} {f : β → β → Bool}
    (hf : ∀ a b, f a b = true → f b a = true → a = b) :
    ∀ x y : String × β,
      lexLeStr f x y = true → lexLeStr f y x = true → x = y := by
  intro x y hxy hyx
  rw [lexLeStr_eq_true_iff] at hxy hyx
  rcases hxy with h | ⟨he, h2⟩
  · rcases hyx with h3 | ⟨he3, _⟩
    · have := strLtB_trans h h3
      rw [strLtB_irrefl] at this
      cases this
    · rw [he3] at h
      rw [strLtB_irrefl] at h
      cases h
  · rcases hyx with h3 | ⟨_, h4⟩
    · rw [he] at h3
      rw [strLtB_irrefl] at h3
      cases h3
    · exact Prod.ext he (hf _ _ h2 h4)

lemma keyLe_trans :
    ∀ t u v : Task, keyLe t u = true → keyLe u v = true → keyLe t v = true :=
  fun _ _ _ h1 h2 =>
    lexLe_trans (lexLe_trans (lexLeStr_trans ble_trans)) _ _ _ h1 h2

lemma keyLe_total : ∀ t u : Task, keyLe t u = true ∨ keyLe u t = true :=
  fun _ _ => lexLe_total (lexLe_total (lexLeStr_total ble_total)) _ _

lemma keyLe_antisymm_key :
    ∀ t u : Task, keyLe t u = true → keyLe u t = true → sortKey t = sortKey u :=
  fun _ _ h1 h2 =>
    lexLe_antisymm (lexLe_antisymm (lexLeStr_antisymm ble_antisymm)) _ _ h1 h2

/-! Claim C1. -/

/-- C1: the spec says that `list` with neither `--done` nor `--todo` shows
every task, but `build_parser` gives the shared destination `done` the
default `False` (the `store_true` action's default), so the handler takes
the pending-only branch: on a store holding pending `taskA` and done
`taskB`, the rendered listing drops `taskB`. -/
theorem list_default_hides_done_tasks :
    listFilter listDoneDefault [taskA, taskB] = [taskA] ∧
    taskB ∈ [taskA, taskB] ∧
    taskB ∉ listFilter listDoneDefault [taskA, taskB] ∧
    listFilter none [taskA, taskB] = [taskA, taskB] := by
  decide

/-! Claim C2. -/

lemma le_foldl_max_init : ∀ (xs : List Int) (x : Int), x ≤ xs.foldl max x := by
  intro xs
  induction xs with
  | nil => intro x; exact le_refl x
  | cons y ys ih =>
    intro x
    exact le_trans (le_max_left x y) (ih (max x y))

lemma le_foldl_max_mem :
    ∀ (xs : List Int) (x a : Int), a ∈ xs → a ≤ xs.foldl max x := by
  intro xs
  induction xs with
  | nil => intro x a ha; cases ha
  | cons y ys ih =>
    intro x a ha
    rcases List.mem_cons.mp ha with h | h
    · subst h
      exact le_trans (le_max_right x a) (le_foldl_max_init ys (max x a))
    · exact ih (max x y) a h

/-- C2 (amended): `next_id` is strictly greater than every id currently in
the collection, so each `add` assigns an id distinct from all current
ones.  (The unamended claim — that ids are never reused even after
deletion — fails, see the counterexample.) -/
theorem nextId_gt_current_ids (tasks : List Task) (t : Task)
    (h : t ∈ tasks) : t.id < nextId tasks := by
  unfold nextId
  have hmem : t.id ∈ tasks.map (·.id) := List.mem_map_of_mem _ h
  rcases hx : tasks.map (·.id) with _ | ⟨x, xs⟩
  · rw [hx] at hmem; cases hmem
  · rw [hx] at hmem
    rw [hx, Int.lt_add_one_iff]
    rcases List.mem_cons.mp hmem with h2 | h2
    · subst h2; exact le_foldl_max_init xs t.id
    · exact le_foldl_max_mem xs x t.id h2

/-- C2 counterexample: starting from the empty store, `add` yields id 1,
`add` yields id 2, `delete 2` succeeds, and the next `add` reassigns
id 2 — the id of the deleted task is reused, so `next_id` is not greater
than every id that has ever existed. -/
theorem id_reused_after_delete :
    addCmd "a" none 3 "T" [] = .ok [exTask1] ∧
    addCmd "b" none 3 "T" [exTask1] = .ok [exTask1, exTask2] ∧
    deleteCmd 2 [exTask1, exTask2] = .ok [exTask1] ∧
    addCmd "c" none 3 "T" [exTask1] =
      .ok [exTask1, { exTask2 with text := "c" }] ∧
    exTask2.id = 2 ∧ ({ exTask2 with text := "c" } : Task).id = 2 := by
  decide

/-- Witness for C2 (amended) at a concrete collection. -/
theorem nextId_gt_current_ids_witness :
    exTask1 ∈ [exTask1, exTask2] ∧ exTask1.id < nextId [exTask1, exTask2] :=
  ⟨by decide, nextId_gt_current_ids [exTask1, exTask2] exTask1 (by decide)⟩

/-! Claim C6. -/

/-- C6 counterexample: a persisted file whose bytes are not valid UTF-8
makes `json.load` raise `UnicodeDecodeError`, which the `except
json.JSONDecodeError` clause does not catch — `load_tasks` raises to the
caller instead of returning the empty collection, refuting "its contents
fail to parse as structured data ⟹ returns empty without raising". -/
theorem load_raises_on_undecodable :
    loadTasks .undecodable ≠ .ok ([] : List Task) ∧
    loadTasks .undecodable = .error "UnicodeDecodeError" := by
  decide

/-- C6 (amended): `load_tasks` returns the empty collection, without
raising, when the file is missing, when its UTF-8 text fails to parse as
JSON, or when it parses to a non-list value, and returns the parsed list
otherwise; but a file whose bytes do not decode as UTF-8 raises to the
caller. -/
theorem loadTasks_recovers_empty :
    loadTasks .missing = .ok [] ∧
    loadTasks .unparseable = .ok [] ∧
    loadTasks .parsedNonList = .ok [] ∧
    (∀ tasks : List Task, loadTasks (.parsedList tasks) = .ok tasks) ∧
    loadTasks .undecodable = .error "UnicodeDecodeError" :=
  ⟨rfl, rfl, rfl, fun _ => rfl, rfl⟩

/-! Claim C3. -/

/-- C3: the tasks `list` renders are pairwise ascending in the composite
key (done rank, then priority, then due string with the far-future
sentinel, then id); the key comparison is total and transitive, and two
mutually comparable tasks have equal keys and hence equal ids — so on a
collection with unique ids the key order is a total order. -/
theorem listTasks_sorted_total_order (df : Option Bool) (tasks : List Task) :
    ((listTasks df tasks).Pairwise fun a b => keyLe a b = true) ∧
    (∀ t u : Task, keyLe t u = true ∨ keyLe u t = true) ∧
    (∀ t u v : Task,
      keyLe t u = true → keyLe u v = true → keyLe t v = true) ∧
    (∀ t u : Task, keyLe t u = true → keyLe u t = true →
      sortKey t = sortKey u ∧ t.id = u.id) := by
  refine ⟨?_, keyLe_total, keyLe_trans, ?_⟩
  · unfold listTasks sortTasks
    exact List.sorted_mergeSort keyLe_trans
      (fun a b => by rcases keyLe_total a b with h | h <;> simp [h]) _
  · intro t u h1 h2
    have hk := keyLe_antisymm_key t u h1 h2
    exact ⟨hk, congrArg (fun k => k.2.2.2) hk⟩

/-- Witness for C3: the sortedness of a concrete listing, and the
antisymmetry conclusion discharged at a concrete pair. -/
theorem listTasks_sorted_total_order_witness :
    ((listTasks none [taskB, taskA]).Pairwise fun a b => keyLe a b = true) ∧
    keyLe taskA taskB = true ∧ taskA.id = taskA.id :=
  ⟨(listTasks_sorted_total_order none [taskB, taskA]).1, by decide,
   ((listTasks_sorted_total_order none [taskB, taskA]).2.2.2 taskA taskA
     (by decide) (by decide)).2⟩

/-! Claim C9. -/

/-- C9: sorting a list already sorted by the composite key is a no-op. -/
theorem sort_idempotent (tasks : List Task)
    (h : tasks.Pairwise fun a b => keyLe a b = true) :
    sortTasks tasks = tasks :=
  List.mergeSort_of_sorted h

/-- Witness for C9 on a concrete sorted list. -/
theorem sort_idempotent_witness :
    ([taskA, taskB].Pairwise fun a b => keyLe a b = true) ∧
    sortTasks [taskA, taskB] = [taskA, taskB] :=
  ⟨by decide, sort_idempotent [taskA, taskB] (by decide)⟩

/-! Claim C7. -/

lemma fromIso_of_falsy {s : String} (h : strFalsy s = true) :
    fromIso s = none := by
  unfold strFalsy at h
  unfold fromIso
  rcases hs : s.toList with _ | ⟨c, cs⟩
  · rfl
  · rw [hs] at h
    simp at h

/-- C7: the Due cell carries the `" (!) "` marker exactly when the task
is pending, has a due date that parses, and that date is strictly before
today; a done task is never flagged. -/
theorem overdue_marker (t : Task) (today : Nat × Nat × Nat) :
    (isOverdue t today = true ↔
      t.done = false ∧ ∃ s d, t.due = some s ∧ fromIso s = some d ∧
        dateLt d today = true) ∧
    (t.done = true → isOverdue t today = false) ∧
    (isOverdue t today = true → dueCell t today = rawDue t ++ " (!) ") ∧
    (isOverdue t today = false → dueCell t today = rawDue t) := by
  refine ⟨?_, ?_, ?_, ?_⟩
  · unfold isOverdue
    cases hdone : t.done
    · rcases hdue : t.due with _ | s
      · simp
      · cases hemp : strFalsy s
        · rcases hiso : fromIso s with _ | d
          · simp [hemp, hiso]
          · obtain ⟨dy, dm, dd⟩ := d
            simp only [hemp, hiso]
            simp
            refine ⟨fun h => ⟨dy, dm, dd, hiso, h⟩, ?_⟩
            rintro ⟨a, b, c, hfi, h⟩
            have heq := hiso.symm.trans hfi
            simp at heq
            obtain ⟨rfl, rfl, rfl⟩ := heq
            exact h
        · have h0 := fromIso_of_falsy hemp
          simp [hemp, h0]
    · simp
  · intro h
    unfold isOverdue
    simp [h]
  · intro h
    unfold dueCell
    simp [h]
  · intro h
    unfold dueCell
    simp [h]

/-- Witness for C7: the done task `taskB` is not flagged even though its
due date is past, and a pending task with a past due date gets the
marker. -/
theorem overdue_marker_witness :
    taskB.done = true ∧ isOverdue taskB (2030, 1, 1) = false ∧
    dueCell { taskA with due := some "2025-01-01" } (2025, 1, 2) =
      rawDue { taskA with due := some "2025-01-01" } ++ " (!) " :=
  ⟨by decide, (overdue_marker taskB (2030, 1, 1)).2.1 (by decide),
   (overdue_marker { taskA with due := some "2025-01-01" } (2025, 1, 2)).2.2.1
     (by decide)⟩

/-! Claims C4, C5, C8, C10: the mutating commands. -/

lemma parseDate_bad {s : String} (hne : strFalsy s = false)
    (hbad : parseYmd s = none) : parseDate (some s) = .error 2 := by
  simp [parseDate, hne, hbad]

lemma applyEdit_bad_due (a : EditArgs) (t : Task) {s : String}
    (hdue : a.due = some s) (hne : strFalsy s = false)
    (hbad : parseYmd s = none) : applyEdit a t = .error 2 := by
  obtain ⟨ta, da, pa⟩ := a
  have hda : da = some s := hdue
  subst hda
  simp [applyEdit, parseDate_bad hne hbad]

lemma editCmd_bad_due (id : Int) (a : EditArgs) {s : String}
    (hdue : a.due = some s) (hne : strFalsy s = false)
    (hbad : parseYmd s = none) :
    ∀ tasks : List Task, (∃ t ∈ tasks, t.id = id) →
      editCmd id a tasks = .error 2 := by
  intro tasks
  induction tasks with
  | nil =>
    rintro ⟨t, ht, _⟩
    cases ht
  | cons t ts ih =>
    rintro ⟨u, hu, hid⟩
    unfold editCmd
    by_cases h : t.id = id
    · rw [if_pos h, applyEdit_bad_due a t hdue hne hbad]
      rfl
    · rw [if_neg h]
      rcases List.mem_cons.mp hu with heq | hmem
      · rw [heq] at hid
        exact absurd hid h
      · rw [ih ⟨u, hmem, hid⟩]
        rfl

/-- C4 (amended): a NONEMPTY due argument that does not parse as a
`YYYY-MM-DD` date makes `add` and `edit` exit with code 2, performing no
save, so the persisted collection is exactly what it was.  (The claim as
stated fails at the empty string, which `parse_date` treats as "no due
date": see the counterexample.) -/
theorem bad_due_exits_2_no_save (s : String) (hne : strFalsy s = false)
    (hbad : parseYmd s = none) (text : String) (pr : Int) (now : String)
    (tasks tasks2 : List Task) (id : Int) (a : EditArgs)
    (hdue : a.due = some s) (hmem : ∃ t ∈ tasks2, t.id = id) :
    addCmd text (some s) pr now tasks = .error 2 ∧
    finalTasks (addCmd text (some s) pr now tasks) tasks = tasks ∧
    editCmd id a tasks2 = .error 2 ∧
    finalTasks (editCmd id a tasks2) tasks2 = tasks2 := by
  have hadd : addCmd text (some s) pr now tasks = .error 2 := by
    unfold addCmd
    rw [parseDate_bad hne hbad]
    rfl
  have hedit := editCmd_bad_due id a hdue hne hbad tasks2 hmem
  exact ⟨hadd, by rw [hadd]; rfl, hedit, by rw [hedit]; rfl⟩

/-- C4 counterexample: the empty string is a due argument that does not
parse as a `YYYY-MM-DD` date, yet `add` accepts it as "no due date",
exits successfully, and saves a changed collection. -/
theorem empty_due_accepted :
    parseYmd "" = none ∧
    addCmd "x" (some "") 3 "T" [] =
      .ok [{ id := 1, text := "x", created_at := "T", due := none,
             priority := 3, done := false }] ∧
    finalTasks (addCmd "x" (some "") 3 "T" []) [] ≠ [] := by
  decide

/-- Witness for C4 (amended) at a concrete malformed date. -/
theorem bad_due_exits_2_no_save_witness :
    strFalsy "2025-13-01" = false ∧ parseYmd "2025-13-01" = none ∧
    addCmd "x" (some "2025-13-01") 3 "T" [] = .error 2 ∧
    editCmd 1 ⟨none, some "2025-13-01", none⟩ [taskA] = .error 2 :=
  have h := bad_due_exits_2_no_save "2025-13-01" (by decide) (by decide)
    "x" 3 "T" [] [taskA] 1 ⟨none, some "2025-13-01", none⟩ rfl
    ⟨taskA, by decide, by decide⟩
  ⟨by decide, by decide, h.1, h.2.2.1⟩

lemma doneCmd_notfound (id : Int) :
    ∀ tasks : List Task, (∀ t ∈ tasks, t.id ≠ id) →
      doneCmd id tasks = .error 1 := by
  intro tasks
  induction tasks with
  | nil =>
    intro _h
    rfl
  | cons t ts ih =>
    intro h
    unfold doneCmd
    rw [if_neg (h t (List.mem_cons_self t ts)),
        ih fun u hu => h u (List.mem_cons_of_mem t hu)]
    rfl

lemma editCmd_notfound (id : Int) (a : EditArgs) :
    ∀ tasks : List Task, (∀ t ∈ tasks, t.id ≠ id) →
      editCmd id a tasks = .error 1 := by
  intro tasks
  induction tasks with
  | nil =>
    intro _h
    rfl
  | cons t ts ih =>
    intro h
    unfold editCmd
    rw [if_neg (h t (List.mem_cons_self t ts)),
        ih fun u hu => h u (List.mem_cons_of_mem t hu)]
    rfl

/-- C5: when no task has the requested id, `done`, `delete` and `edit`
all exit with code 1 and perform no save, leaving the persisted
collection unchanged. -/
theorem missing_id_exits_1 (id : Int) (tasks : List Task)
    (h : ∀ t ∈ tasks, t.id ≠ id) :
    doneCmd id tasks = .error 1 ∧
    deleteCmd id tasks = .error 1 ∧
    (∀ a : EditArgs, editCmd id a tasks = .error 1) ∧
    finalTasks (doneCmd id tasks) tasks = tasks ∧
    finalTasks (deleteCmd id tasks) tasks = tasks ∧
    (∀ a : EditArgs, finalTasks (editCmd id a tasks) tasks = tasks) := by
  have hdone := doneCmd_notfound id tasks h
  have hedit := fun a => editCmd_notfound id a tasks h
  have hfil : tasks.filter (fun t => t.id ≠ id) = tasks :=
    List.filter_eq_self.mpr fun t ht => decide_eq_true (h t ht)
  have hdel : deleteCmd id tasks = .error 1 := by
    unfold deleteCmd
    rw [hfil]
    simp
  exact ⟨hdone, hdel, hedit, by rw [hdone]; rfl, by rw [hdel]; rfl,
    fun a => by rw [hedit a]; rfl⟩

/-- Witness for C5 on a concrete collection missing id 99. -/
theorem missing_id_exits_1_witness :
    (∀ t ∈ [taskA], t.id ≠ 99) ∧ doneCmd 99 [taskA] = .error 1 ∧
    deleteCmd 99 [taskA] = .error 1 ∧
    editCmd 99 ⟨none, none, none⟩ [taskA] = .error 1 :=
  have h := missing_id_exits_1 99 [taskA] (by decide)
  ⟨by decide, h.1, h.2.1, h.2.2.1 ⟨none, none, none⟩⟩

lemma set_get_self {α : Type} :
    ∀ (l : List α) (i : Nat) (hi : i < l.length),
      l.set i (l.get ⟨i, hi⟩) = l := by
  intro l
  induction l with
  | nil =>
    intro i hi
    exact absurd hi (Nat.not_lt_zero i)
  | cons x xs ih =>
    intro i hi
    cases i with
    | zero => rfl
    | succ j =>
      show x :: xs.set j (xs.get ⟨j, Nat.lt_of_succ_lt_succ hi⟩) = x :: xs
      rw [ih j (Nat.lt_of_succ_lt_succ hi)]

lemma applyEdit_ok (a : EditArgs) (t : Task) (d : Option String)
    (hdue : parseDate a.due = .ok d) :
    applyEdit a t = .ok (editedTask a d t) := by
  obtain ⟨ta, da, pa⟩ := a
  cases da with
  | none => cases ta <;> cases pa <;> rfl
  | some s =>
    have hds : parseDate (some s) = .ok d := hdue
    cases ta <;> cases pa <;> simp [applyEdit, editedTask, hds]

lemma editCmd_eq_first (id : Int) (a : EditArgs) :
    ∀ (tasks : List Task) (i : Nat) (hi : i < tasks.length),
      (tasks.get ⟨i, hi⟩).id = id →
      (∀ u ∈ tasks.take i, u.id ≠ id) →
      editCmd id a tasks =
        (applyEdit a (tasks.get ⟨i, hi⟩)).map (tasks.set i ·) := by
  intro tasks
  induction tasks with
  | nil =>
    intro i hi
    exact absurd hi (Nat.not_lt_zero i)
  | cons t ts ih =>
    intro i hi hfound hfirst
    cases i with
    | zero =>
      have h0 : t.id = id := hfound
      unfold editCmd
      rw [if_pos h0]
      rfl
    | succ j =>
      have hj : j < ts.length := Nat.lt_of_succ_lt_succ hi
      have hne : t.id ≠ id := hfirst t (List.mem_cons_self t (ts.take j))
      unfold editCmd
      rw [if_neg hne,
          ih j hj hfound fun u hu => hfirst u (List.mem_cons_of_mem t hu)]
      show ((applyEdit a (ts.get ⟨j, hj⟩)).map (ts.set j ·)).map (t :: ·) =
        (applyEdit a (ts.get ⟨j, hj⟩)).map (((t :: ts).set (j + 1)) ·)
      cases applyEdit a (ts.get ⟨j, hj⟩) <;> rfl

/-- C8: when the collection's first task with the given id sits at index
`i` and the due argument parses to `d`, `edit` succeeds and replaces
exactly that task by `editedTask`: the provided fields are overwritten
(text stripped, due re-parsed), its id, creation time, completion flag
and every unprovided field are kept, and every other position of the
collection is unchanged. -/
theorem edit_updates_only_given_fields (tasks : List Task) (id : Int)
    (a : EditArgs) (i : Nat) (hi : i < tasks.length)
    (hfound : (tasks.get ⟨i, hi⟩).id = id)
    (hfirst : ∀ u ∈ tasks.take i, u.id ≠ id)
    (d : Option String) (hdue : parseDate a.due = .ok d) :
    editCmd id a tasks =
      .ok (tasks.set i (editedTask a d (tasks.get ⟨i, hi⟩))) ∧
    (editedTask a d (tasks.get ⟨i, hi⟩)).id = (tasks.get ⟨i, hi⟩).id ∧
    (editedTask a d (tasks.get ⟨i, hi⟩)).created_at =
      (tasks.get ⟨i, hi⟩).created_at ∧
    (editedTask a d (tasks.get ⟨i, hi⟩)).done = (tasks.get ⟨i, hi⟩).done ∧
    (a.text = none →
      (editedTask a d (tasks.get ⟨i, hi⟩)).text = (tasks.get ⟨i, hi⟩).text) ∧
    (a.due = none →
      (editedTask a d (tasks.get ⟨i, hi⟩)).due = (tasks.get ⟨i, hi⟩).due) ∧
    (a.priority = none →
      (editedTask a d (tasks.get ⟨i, hi⟩)).priority =
        (tasks.get ⟨i, hi⟩).priority) ∧
    (∀ j, j ≠ i →
      (tasks.set i (editedTask a d (tasks.get ⟨i, hi⟩)))[j]? = tasks[j]?) := by
  refine ⟨?_, rfl, rfl, rfl, ?_, ?_, ?_, ?_⟩
  · rw [editCmd_eq_first id a tasks i hi hfound hfirst,
        applyEdit_ok a _ d hdue]
    rfl
  · intro h
    simp [editedTask, h]
  · intro h
    simp [editedTask, h]
  · intro h
    simp [editedTask, h]
  · intro j hj
    exact List.getElem?_set_ne (Ne.symm hj)

/-- Witness for C8: a concrete edit of every field of `taskB`. -/
theorem edit_updates_only_given_fields_witness :
    parseDate (some "2025-2-3") = .ok (some "2025-02-03") ∧
    editCmd 2 ⟨some " new ", some "2025-2-3", some 1⟩ [taskA, taskB] =
      .ok [taskA,
        { id := 2, text := "new", created_at := "2025-01-01T10:00:00",
          due := some "2025-02-03", priority := 1, done := true }] :=
  have h := edit_updates_only_given_fields [taskA, taskB] 2
    ⟨some " new ", some "2025-2-3", some 1⟩ 1 (by decide) (by decide)
    (by decide) (some "2025-02-03") (by decide)
  ⟨by decide, h.1.trans (by decide)⟩

/-! Claim C10. -/

/-- C10: on a collection whose first task with the given id sits at
index `i`, `edit` with the due option given as the empty string succeeds
and clears that task's due date to `none`, while `edit` with the due
option omitted returns the collection unchanged — so an explicitly empty
due is distinguishable from an unset one. -/
theorem edit_empty_due_clears (tasks : List Task) (id : Int)
    (i : Nat) (hi : i < tasks.length)
    (hfound : (tasks.get ⟨i, hi⟩).id = id)
    (hfirst : ∀ u ∈ tasks.take i, u.id ≠ id) :
    editCmd id ⟨none, some "", none⟩ tasks =
      .ok (tasks.set i { tasks.get ⟨i, hi⟩ with due := none }) ∧
    editCmd id ⟨none, none, none⟩ tasks = .ok tasks := by
  constructor
  · rw [editCmd_eq_first id _ tasks i hi hfound hfirst,
        applyEdit_ok _ _ none (by decide)]
    rfl
  · rw [editCmd_eq_first id _ tasks i hi hfound hfirst,
        applyEdit_ok ⟨none, none, none⟩ (tasks.get ⟨i, hi⟩) none rfl]
    show Except.ok (tasks.set i (tasks.get ⟨i, hi⟩)) = Except.ok tasks
    rw [set_get_self tasks i hi]

/-- Witness for C10 on the one-task collection `[taskB]`. -/
theorem edit_empty_due_clears_witness :
    editCmd 2 ⟨none, some "", none⟩ [taskB] =
      .ok [{ taskB with due := none }] ∧
    editCmd 2 ⟨none, none, none⟩ [taskB] = .ok [taskB] :=
  have h := edit_empty_due_clears [taskB] 2 0 (by decide) (by decide)
    (by decide)
  ⟨h.1.trans (by decide), h.2⟩

end ToDo
